import Mathlib

/-!
Verification of the piker EMS core (`src/piker/_ems.py`).

A shallow embedding of the execution-management-system core:

* `mk_check` — predicate construction (`_ems.py`, lines 174-199);
* the `exec_orders` feed-worker tick-evaluation loop (lines 242-321),
  embedded as `stepTick` / `runTicks` over the worker's per-key view of
  the `_ExecBook` state;
* the `stream_and_route` router command loop (lines 324-391), embedded
  as `routerStep` / `runRouter`;
* the client-side `OrderBook.on_fill` operation (lines 63-66).

Prices (`float64` in the source) are embedded as rationals `ℚ`: a
totally ordered, decidable numeric type.  Python dicts keyed by strings
become total functions into `Option`/`List` values.  Python's dynamic
failures (a `KeyError` on missing dict entry, an `IndexError` on
`brokers[0]`, a `TypeError` on comparing an absent tick price) are
embedded as `Option`-valued results.
-/

namespace Piker

/-- The trigger direction labels produced by `mk_check`: the strings
`'down'` and `'up'` in the source. -/
inductive Direction where
  | down
  | up
deriving DecidableEq, Repr

/-- A client order command.  The source passes these around as dicts
`{'msg': ..., 'price': ..., 'symbol': ..., 'brokers': ..., 'oid': ...}`
(see `OrderBook.alert`, `_ems.py` lines 79-85).  `msg` is kept as a
string, exactly as the source compares it (`cmd['msg'] == 'cancel'`). -/
structure Command where
  msg : String
  oid : String
  symbol : String
  brokers : List String
  price : ℚ
deriving DecidableEq, Repr

/-- The predicate closures produced by `mk_check`: the source builds one
of the two closures `check_gt` (`price >= trigger_price`) and `check_lt`
(`price <= trigger_price`), each capturing `trigger_price`.  The
closures are embedded as first-class data with an explicit evaluation
function. -/
inductive TriggerPred where
  | check_gt (trigger_price : ℚ)
  | check_lt (trigger_price : ℚ)
deriving DecidableEq, Repr

/-- Evaluation of a trigger predicate at a tick price: the bodies of the
`check_gt` / `check_lt` closures in `mk_check`. -/
def TriggerPred.eval : TriggerPred → ℚ → Bool
  | .check_gt trigger_price, price => price ≥ trigger_price
  | .check_lt trigger_price, price => price ≤ trigger_price

/-- `mk_check(trigger_price, known_last)` (`_ems.py` lines 174-199):

```python
if trigger_price >= known_last:
    def check_gt(price): return price >= trigger_price
    return check_gt, 'down'
elif trigger_price <= known_last:
    def check_lt(price): return price <= trigger_price
    return check_lt, 'up'
```

Over the totally ordered `ℚ` the `elif` guard `trigger_price <=
known_last` always holds when the first guard fails, so the function is
total and the `elif` branch is the `else` branch of the embedding. -/
def mk_check (trigger_price known_last : ℚ) : TriggerPred × Direction :=
  if trigger_price ≥ known_last then
    (TriggerPred.check_gt trigger_price, Direction.down)
  else
    (TriggerPred.check_lt trigger_price, Direction.up)

/-! ## Claims C1, C3, C4: predicate construction -/

/-- Claim C3: For all `triggerPrice`, `knownLast` with `triggerPrice >=
knownLast`, `mk_check` returns the predicate `price ↦ price >=
triggerPrice` paired with direction `down`; otherwise (`triggerPrice <
knownLast`) it returns `price ↦ price <= triggerPrice` paired with
direction `up`. -/
theorem mk_check_cases (trigger_price known_last : ℚ) :
    (trigger_price ≥ known_last →
      (mk_check trigger_price known_last).2 = Direction.down ∧
      ∀ price, (mk_check trigger_price known_last).1.eval price
        = decide (price ≥ trigger_price)) ∧
    (trigger_price < known_last →
      (mk_check trigger_price known_last).2 = Direction.up ∧
      ∀ price, (mk_check trigger_price known_last).1.eval price
        = decide (price ≤ trigger_price)) := by
  constructor
  · intro h
    simp only [mk_check, if_pos h]
    exact ⟨trivial, fun price => rfl⟩
  · intro h
    simp only [mk_check, if_neg (not_le.mpr h)]
    exact ⟨trivial, fun price => rfl⟩

/-- Witness for C3: `mk_check 100 95` is the `down`/`>=` case and
`mk_check 50 60` is the `up`/`<=` case. -/
theorem mk_check_cases_witness :
    ((mk_check 100 95).2 = Direction.down ∧
      (mk_check 100 95).1.eval 101 = decide ((101 : ℚ) ≥ 100)) ∧
    ((mk_check 50 60).2 = Direction.up ∧
      (mk_check 50 60).1.eval 55 = decide ((55 : ℚ) ≤ 50)) := by
  have h1 := (mk_check_cases 100 95).1 (by norm_num)
  have h2 := (mk_check_cases 50 60).2 (by norm_num)
  exact ⟨⟨h1.1, h1.2 101⟩, ⟨h2.1, h2.2 55⟩⟩

/-- Counterexample to claim C1 as stated: at `triggerPrice = 100`,
`knownLast = 95` the direction is *not* `up`, a tick at price 99 does
*not* fire the predicate, and a tick at price 101 *does*. -/
theorem mk_check_100_95_not_up :
    ¬ ((mk_check 100 95).2 = Direction.up ∧
       (mk_check 100 95).1.eval 99 = true ∧
       (mk_check 100 95).1.eval 101 = false) := by
  decide

/-- Claim C1, amended: For an order with `triggerPrice = 100` and
`knownLast = 95`, `mk_check` returns direction `down` and a predicate
that fires on the first tick with `price >= 100`: a tick at price 101
fires it and a tick at price 99 does not. -/
theorem mk_check_100_95 :
    (mk_check 100 95).2 = Direction.down ∧
    (mk_check 100 95).1.eval 101 = true ∧
    (mk_check 100 95).1.eval 99 = false := by
  decide

/-- Claim C4: For every pair `(triggerPrice, knownLast)`, the predicate
returned by `mk_check` evaluates to `false` at `price = knownLast`
unless `triggerPrice = knownLast`; in the equality case it evaluates to
`true` at `knownLast`. -/
theorem mk_check_no_immediate_fire (trigger_price known_last : ℚ) :
    (trigger_price ≠ known_last →
      (mk_check trigger_price known_last).1.eval known_last = false) ∧
    (trigger_price = known_last →
      (mk_check trigger_price known_last).1.eval known_last = true) := by
  constructor
  · intro hne
    rcases lt_or_gt_of_ne hne with hlt | hgt
    · simp [mk_check, if_neg (not_le.mpr hlt), TriggerPred.eval,
        not_le.mpr hlt]
    · simp [mk_check, if_pos (le_of_lt hgt), TriggerPred.eval,
        not_le.mpr hgt]
  · intro heq
    subst heq
    simp [mk_check, TriggerPred.eval]

/-- Witness for C4: at `(100, 95)` the predicate is false at 95, and at
`(100, 100)` it is true at 100. -/
theorem mk_check_no_immediate_fire_witness :
    (mk_check 100 95).1.eval 95 = false ∧
    (mk_check 100 100).1.eval 100 = true :=
  ⟨(mk_check_no_immediate_fire 100 95).1 (by norm_num),
   (mk_check_no_immediate_fire 100 100).2 rfl⟩

/-! ## FeedWorker: the `exec_orders` tick-evaluation loop

`exec_orders` (`_ems.py` lines 242-321) owns the feed for one
`(broker, symbol)` key.  Per tick it runs

```python
price = tick.get('price')
if price < 0: continue
book.lasts[(broker, symbol)] = price
if not execs: continue
for oid, pred, name, cmd in tuple(execs):
    if pred(price):
        cmd['name'] = name
        cmd['index'] = feed.shm._last.value - 1
        cmd['trigger_price'] = price
        await ctx.send_yield(cmd)
        execs.remove((oid, pred, name, cmd))
```

The embedding models the worker's per-key view of the `_ExecBook`
singleton: the live pending list `execs = book.orders[(broker, symbol)]`
and the last price `book.lasts[(broker, symbol)]`.  The feed is opened
on the single symbol `[symbol]`, so the quote key `sym` and the
parameter `symbol` coincide.  The shared-memory index
`feed.shm._last.value` is an external counter, carried as an opaque
state field. -/

/-- A pending order: the tuple `(oid, pred, name, cmd)` appended to
`book.orders[(broker, sym)]` by `stream_and_route`. -/
structure PendingOrder where
  oid : String
  pred : TriggerPred
  name : Direction
  cmd : Command
deriving DecidableEq, Repr

/-- The message yielded back to the parent on a trigger: the order's
`cmd` dict annotated in place with `name`, `index` and
`trigger_price` (`_ems.py` lines 298-303). -/
structure TriggerMsg where
  cmd : Command
  name : Direction
  index : Int
  trigger_price : ℚ
deriving DecidableEq, Repr

/-- The annotation of `cmd` performed just before `ctx.send_yield`. -/
def PendingOrder.toMsg (o : PendingOrder) (price : ℚ) (shm_index : Int) :
    TriggerMsg :=
  { cmd := o.cmd, name := o.name, index := shm_index - 1,
    trigger_price := price }

/-- The feed worker's view of the execution book for its
`(broker, symbol)` key: the live pending list, the last-seen price, and
the shared-memory buffer counter. -/
structure WorkerState where
  execs : List PendingOrder
  last : ℚ
  shm_last : Int
deriving DecidableEq, Repr

/-- The inner loop `for oid, pred, name, cmd in tuple(execs)`: iterate a
snapshot of the pending list; for each satisfied predicate, emit the
annotated command and remove the tuple from the *live* list
(`execs.remove(...)` removes the first occurrence equal to the
tuple). -/
def evalSnapshot (price : ℚ) (shm_index : Int) :
    List PendingOrder → List PendingOrder → List TriggerMsg →
    List PendingOrder × List TriggerMsg
  | [], execs, out => (execs, out)
  | o :: snap, execs, out =>
    if o.pred.eval price then
      evalSnapshot price shm_index snap (execs.erase o)
        (out ++ [o.toMsg price shm_index])
    else
      evalSnapshot price shm_index snap execs out

/-- One tick of the `exec_orders` loop: skip malformed ticks
(`price < 0`), otherwise update the last price unconditionally, then —
only if the pending list is non-empty — evaluate a snapshot of it. -/
def stepTick (st : WorkerState) (price : ℚ) : WorkerState × List TriggerMsg :=
  if price < 0 then
    (st, [])
  else
    let st1 : WorkerState := { st with last := price }
    if st1.execs.isEmpty then
      (st1, [])
    else
      let r := evalSnapshot price st1.shm_last st1.execs st1.execs []
      ({ st1 with execs := r.1 }, r.2)

/-- The worker's tick loop: ticks are processed in delivery order and
the emitted trigger messages are concatenated. -/
def runTicks (st : WorkerState) : List ℚ → WorkerState × List TriggerMsg
  | [] => (st, [])
  | price :: ticks =>
    let r := stepTick st price
    let r2 := runTicks r.1 ticks
    (r2.1, r.2 ++ r2.2)

/-- A raw tick record as delivered in a quote batch: a dict whose
`'price'` field may be absent (`tick.get('price')` yields no value). -/
structure TickMsg where
  price : Option ℚ
  size : Option ℚ
deriving DecidableEq, Repr

/-- One tick of the loop at the message level: `tick.get('price')`
returns `None` for a tick without a `'price'` field, and the guard
`price < 0` is then not defined (`None < 0` raises `TypeError`), so the
step is `Option`-valued. -/
def stepTickMsg (st : WorkerState) (tick : TickMsg) :
    Option (WorkerState × List TriggerMsg) :=
  match tick.price with
  | none => none
  | some price => some (stepTick st price)

/-! ## Claims C8 and C9: tick filtering -/

/-- Claim C8: A tick with `price < 0` is silently skipped: the worker state
(including the last price) is unchanged and no trigger message is
emitted for that tick. -/
theorem negative_tick_skipped (st : WorkerState) (price : ℚ)
    (h : price < 0) :
    stepTick st price = (st, []) := by
  simp [stepTick, h]

/-- A demonstration worker state with one pending order. -/
def demoState : WorkerState :=
  { execs := [{ oid := "o1", pred := TriggerPred.check_lt 10,
                name := Direction.up,
                cmd := { msg := "alert", oid := "o1", symbol := "X",
                         brokers := ["B"], price := 10 } }],
    last := 12, shm_last := 7 }

/-- Witness for C8: a tick at price `-1` leaves the demonstration state
untouched and emits nothing, even though the pending predicate would
hold at `-1`. -/
theorem negative_tick_skipped_witness :
    stepTick demoState (-1) = (demoState, []) :=
  negative_tick_skipped demoState (-1) (by norm_num)

/-- Claim C9: The message-level evaluation step is defined exactly for
ticks that carry a `'price'` value; in particular it is not defined on a
tick without one (the guard compares the absent price against 0 and
fails), rather than skipping the tick. -/
theorem step_defined_iff_price_present :
    (∀ st, stepTickMsg st { price := none, size := none } = none) ∧
    (∀ st tick, (stepTickMsg st tick).isSome ↔ tick.price.isSome) := by
  refine ⟨fun st => rfl, fun st tick => ?_⟩
  cases h : tick.price <;> simp [stepTickMsg, h]

/-! ## Claim C6: evaluation follows insertion order -/

/-- The snapshot loop emits exactly the satisfied orders, in snapshot
order, appended to the already-accumulated output; the emitted messages
do not depend on the live list. -/
theorem evalSnapshot_out_eq (price : ℚ) (shm_index : Int) :
    ∀ (snap execs : List PendingOrder) (out : List TriggerMsg),
      (evalSnapshot price shm_index snap execs out).2
        = out ++ (snap.filter (fun o => o.pred.eval price)).map
            (fun o => o.toMsg price shm_index) := by
  intro snap
  induction snap with
  | nil => intro execs out; simp [evalSnapshot]
  | cons o snap ih =>
    intro execs out
    by_cases h : o.pred.eval price
    · simp [evalSnapshot, h, ih]
    · simp [evalSnapshot, h, ih]

/-- Claim C6: For two pending orders `A` and `B` on the same key, with `A`
inserted before `B`, a single (well-formed) tick that satisfies both
predicates makes the worker emit the trigger message for `A` strictly
before the trigger message for `B`. -/
theorem triggers_in_insertion_order
    (A B : PendingOrder) (l1 l2 l3 : List PendingOrder)
    (last0 : ℚ) (shm : Int) (price : ℚ) (hp : 0 ≤ price)
    (hA : A.pred.eval price = true) (hB : B.pred.eval price = true) :
    ∃ e1 e2 e3,
      (stepTick { execs := l1 ++ A :: l2 ++ B :: l3, last := last0,
                  shm_last := shm } price).2
        = e1 ++ A.toMsg price shm :: (e2 ++ B.toMsg price shm :: e3) := by
  refine ⟨(l1.filter (fun o => o.pred.eval price)).map
            (fun o => o.toMsg price shm),
          (l2.filter (fun o => o.pred.eval price)).map
            (fun o => o.toMsg price shm),
          (l3.filter (fun o => o.pred.eval price)).map
            (fun o => o.toMsg price shm), ?_⟩
  have hnotneg : ¬ price < 0 := not_lt.mpr hp
  simp [stepTick, hnotneg, evalSnapshot_out_eq, hA, hB]

/-- A demonstration order `A`: alert at trigger 70 entered with last
price 65, so it fires on `price <= 70`. -/
def orderA : PendingOrder :=
  { oid := "oA", pred := TriggerPred.check_lt 70, name := Direction.up,
    cmd := { msg := "alert", oid := "oA", symbol := "X",
             brokers := ["B"], price := 70 } }

/-- A demonstration order `B`: alert at trigger 60 entered with last
price 65, so it fires on `price <= 60`. -/
def orderB : PendingOrder :=
  { oid := "oB", pred := TriggerPred.check_lt 60, name := Direction.up,
    cmd := { msg := "alert", oid := "oB", symbol := "X",
             brokers := ["B"], price := 60 } }

/-- Witness for C6: the orders `A` (`price <= 70`) and `B`
(`price <= 60`) inserted in that order, on a tick at price 55 that
satisfies both, emit `A`'s message before `B`'s. -/
theorem triggers_in_insertion_order_witness :
    ∃ e1 e2 e3,
      (stepTick { execs := [] ++ orderA :: ([] ++ orderB :: []),
                  last := 65, shm_last := 3 } 55).2
        = e1 ++ orderA.toMsg 55 3 :: (e2 ++ orderB.toMsg 55 3 :: e3) :=
  triggers_in_insertion_order orderA orderB [] [] [] 65 3 55 (by norm_num)
    (by decide) (by decide)

/-! ## Claim C5: an order triggers at most once -/

/-- The number of pending orders in `l` whose order id is `t`. -/
def countOid (t : String) (l : List PendingOrder) : Nat :=
  l.countP (fun o => o.oid == t)

/-- The number of emitted trigger messages in `out` for order id `t`
(the yielded message is the order's `cmd` dict, so its id is
`cmd['oid']`). -/
def countMsgs (t : String) (out : List TriggerMsg) : Nat :=
  out.countP (fun e => e.cmd.oid == t)

/-- The live list produced by the snapshot loop is a sublist of the
live list it started from: the loop only ever removes entries. -/
theorem evalSnapshot_execs_sublist (price : ℚ) (shm : Int) :
    ∀ (snap execs : List PendingOrder) (out : List TriggerMsg),
      ((evalSnapshot price shm snap execs out).1).Sublist execs := by
  intro snap
  induction snap with
  | nil =>
    intro execs out
    simp [evalSnapshot]
  | cons o snap ih =>
    intro execs out
    by_cases h : o.pred.eval price
    · have hstep : evalSnapshot price shm (o :: snap) execs out
          = evalSnapshot price shm snap (execs.erase o)
              (out ++ [o.toMsg price shm]) := by
        simp [evalSnapshot, h]
      rw [hstep]
      exact (ih _ _).trans (List.erase_sublist o execs)
    · have hstep : evalSnapshot price shm (o :: snap) execs out
          = evalSnapshot price shm snap execs out := by
        simp [evalSnapshot, h]
      rw [hstep]
      exact ih _ _

/-- Invariant of the snapshot loop for a fixed order id `t`: the number
of messages emitted for `t` plus the number of live entries with id `t`
never grows — firing an entry converts one live occurrence into one
message, because the fired tuple is erased from the live list before any
later tick is considered. -/
theorem evalSnapshot_count_inv (t : String) (price : ℚ) (shm : Int)
    (n : Nat) :
    ∀ (snap execs : List PendingOrder) (out : List TriggerMsg),
      snap.Sublist execs →
      (∀ o ∈ execs, o.cmd.oid = o.oid) →
      countMsgs t out + countOid t execs ≤ n →
      countMsgs t (evalSnapshot price shm snap execs out).2
        + countOid t (evalSnapshot price shm snap execs out).1 ≤ n := by
  intro snap
  induction snap with
  | nil =>
    intro execs out _ _ hcount
    simpa [evalSnapshot] using hcount
  | cons o snap ih =>
    intro execs out hsub hw hcount
    have ho : o ∈ execs := hsub.subset (List.mem_cons_self o snap)
    by_cases h : o.pred.eval price
    · have hstep : evalSnapshot price shm (o :: snap) execs out
          = evalSnapshot price shm snap (execs.erase o)
              (out ++ [o.toMsg price shm]) := by
        simp [evalSnapshot, h]
      rw [hstep]
      have hsub2 : snap.Sublist (execs.erase o) := by
        have h2 := hsub.erase o
        rwa [List.erase_cons_head o snap] at h2
      have hw2 : ∀ o' ∈ execs.erase o, o'.cmd.oid = o'.oid := fun o' ho' =>
        hw o' ((List.erase_sublist o execs).subset ho')
      apply ih _ _ hsub2 hw2
      have hperm := (List.perm_cons_erase ho).countP_eq
        (fun o' => o'.oid == t)
      have e2 : countOid t execs
          = countOid t (execs.erase o)
            + (if (o.oid == t) = true then 1 else 0) := by
        simpa [countOid, List.countP_cons, Nat.add_comm] using hperm
      have e1 : countMsgs t (out ++ [o.toMsg price shm])
          = countMsgs t out + (if (o.oid == t) = true then 1 else 0) := by
        simp [countMsgs, List.countP_append, List.countP_cons,
          PendingOrder.toMsg, hw o ho]
      rw [e1]
      omega
    · have hstep : evalSnapshot price shm (o :: snap) execs out
          = evalSnapshot price shm snap execs out := by
        simp [evalSnapshot, h]
      rw [hstep]
      exact ih _ _ ((List.sublist_cons_self o snap).trans hsub) hw hcount

/-- One tick preserves the single-fire budget: if `k` messages for `t`
were already emitted and `k` plus the live occurrences of `t` is within
the budget, the same holds after the tick, counting its new messages. -/
theorem stepTick_count_inv (t : String) (st : WorkerState) (price : ℚ)
    (k : Nat)
    (hw : ∀ o ∈ st.execs, o.cmd.oid = o.oid)
    (hcount : k + countOid t st.execs ≤ 1) :
    (∀ o ∈ (stepTick st price).1.execs, o.cmd.oid = o.oid) ∧
    k + (countMsgs t (stepTick st price).2
      + countOid t (stepTick st price).1.execs) ≤ 1 := by
  by_cases hneg : price < 0
  · have hstep : stepTick st price = (st, []) := by simp [stepTick, hneg]
    rw [hstep]
    exact ⟨hw, by simpa [countMsgs] using hcount⟩
  · by_cases hemp : st.execs.isEmpty
    · have hstep : stepTick st price = ({ st with last := price }, []) := by
        simp [stepTick, hneg, hemp]
      rw [hstep]
      exact ⟨hw, by simpa [countMsgs] using hcount⟩
    · have hstep : stepTick st price
          = ({ execs := (evalSnapshot price st.shm_last st.execs
                  st.execs []).1,
               last := price, shm_last := st.shm_last },
             (evalSnapshot price st.shm_last st.execs st.execs []).2) := by
        simp [stepTick, hneg, hemp]
      rw [hstep]
      dsimp only
      constructor
      · intro o ho
        exact hw o ((evalSnapshot_execs_sublist price st.shm_last
          st.execs st.execs []).subset ho)
      · have h1 := evalSnapshot_count_inv t price st.shm_last (1 - k)
          st.execs st.execs [] (List.Sublist.refl _) hw
          (by simp only [countMsgs, List.countP_nil, Nat.zero_add]; omega)
        have hk : k ≤ 1 := le_trans (Nat.le_add_right k _) hcount
        omega

/-- The single-fire budget is preserved along any tick sequence. -/
theorem runTicks_count_inv (t : String) :
    ∀ (ticks : List ℚ) (st : WorkerState) (k : Nat),
      (∀ o ∈ st.execs, o.cmd.oid = o.oid) →
      k + countOid t st.execs ≤ 1 →
      k + (countMsgs t (runTicks st ticks).2
        + countOid t (runTicks st ticks).1.execs) ≤ 1 := by
  intro ticks
  induction ticks with
  | nil =>
    intro st k _ hcount
    simpa [runTicks, countMsgs] using hcount
  | cons price ticks ih =>
    intro st k hw hcount
    have hstep := stepTick_count_inv t st price k hw hcount
    have hrec := ih (stepTick st price).1 (k + countMsgs t (stepTick st price).2)
      hstep.1 (by omega)
    simp only [runTicks]
    simp only [countMsgs, List.countP_append] at hrec ⊢
    omega

/-- Claim C5: For every order id `t` occurring at most once in the pending
list, over any tick sequence processed by the worker loop, at most one
trigger message is ever emitted for `t`: once the predicate fires and
the message is emitted the order is removed, and no later tick produces
a second message even if it also satisfies the predicate. -/
theorem single_trigger_per_oid (t : String) (st : WorkerState)
    (ticks : List ℚ)
    (hw : ∀ o ∈ st.execs, o.cmd.oid = o.oid)
    (h : countOid t st.execs ≤ 1) :
    countMsgs t (runTicks st ticks).2 ≤ 1 := by
  have hinv := runTicks_count_inv t ticks st 0 hw (by omega)
  omega

/-- Witness for C5: the demonstration state holds one order `"o1"`
(`price <= 10`); the ticks `[5, 4, 3]` all satisfy its predicate, yet at
most one trigger message is emitted for `"o1"`. -/
theorem single_trigger_per_oid_witness :
    countMsgs "o1" (runTicks demoState [5, 4, 3]).2 ≤ 1 :=
  single_trigger_per_oid "o1" demoState [5, 4, 3] (by decide) (by decide)

/-! ## Router: the `stream_and_route` command loop

`stream_and_route` (`_ems.py` lines 324-391) processes inbound command
dicts:

```python
msg = cmd['msg']
if msg == 'cancel':
    # TODO:
    pass
trigger_price = cmd['price']
sym = cmd['symbol']
brokers = cmd['brokers']
oid = cmd['oid']
broker = brokers[0]
last = book.lasts.get((broker, sym))
if last is None:  # spawn new brokerd feed task
    quote = await n.start(exec_orders, ctx, broker, sym, trigger_price)
last = book.lasts[(broker, sym)]
pred, name = mk_check(trigger_price, last)
book.orders.setdefault((broker, sym), []).append((oid, pred, name, cmd))
await ctx.send_yield({'msg': 'ack', 'oid': oid})
```

Note the `cancel` branch is `pass` with no `continue`: control falls
through into the trigger-setup code for every command, `cancel`
included.  Spawning `exec_orders` writes the feed's first quote into
`book.lasts[(broker, sym)]` before the `task_status.started` handshake
returns, so the subsequent plain indexing succeeds. -/

/-- The `_ExecBook` singleton: pending orders and last-seen prices per
`(broker, symbol)` key.  A key never touched maps to the empty pending
list and to no last price (`dict.get` yields `None`). -/
structure ExecBook where
  orders : String × String → List PendingOrder
  lasts : String × String → Option ℚ

/-- The router's state: the book plus the keys for which an
`exec_orders` feed worker task has been spawned (in spawn order). -/
structure RouterState where
  book : ExecBook
  workers : List (String × String)

/-- A message sent back over the router's outbound channel: either the
`{'msg': 'ack', 'oid': oid}` acknowledgement or an annotated trigger
command. -/
inductive EmsMsg where
  | ack (oid : String)
  | trigger (m : TriggerMsg)
deriving DecidableEq, Repr

/-- One iteration of the `stream_and_route` command loop.
`feed_first_last` is the first quote price the feed would report if a
worker is spawned for the command's key.  `brokers[0]` on an empty
broker list raises, and the plain `book.lasts[...]` indexing raises on a
missing key, so the step is `Option`-valued.  The `cancel` stub
(`pass`, no `continue`) deliberately has no case here: every command
falls through to trigger setup. -/
def routerStep (st : RouterState) (cmd : Command) (feed_first_last : ℚ) :
    Option (RouterState × List EmsMsg) :=
  match cmd.brokers with
  | [] => none
  | broker :: _ =>
    let key := (broker, cmd.symbol)
    let st1 : RouterState :=
      match st.book.lasts key with
      | none =>
        { book := { st.book with
            lasts := fun k => if k = key then some feed_first_last
                              else st.book.lasts k },
          workers := st.workers ++ [key] }
      | some _ => st
    match st1.book.lasts key with
    | none => none
    | some last =>
      let pn := mk_check cmd.price last
      let pending : PendingOrder :=
        { oid := cmd.oid, pred := pn.1, name := pn.2, cmd := cmd }
      some
        ({ st1 with book := { st1.book with
            orders := fun k => if k = key
              then st1.book.orders key ++ [pending]
              else st1.book.orders k } },
         [EmsMsg.ack cmd.oid])

/-- The command loop over a finite inbound stream, each command paired
with the first quote price its feed would report if spawned. -/
def runRouter (st : RouterState) :
    List (Command × ℚ) → Option (RouterState × List EmsMsg)
  | [] => some (st, [])
  | (cmd, q) :: rest =>
    match routerStep st cmd q with
    | none => none
    | some (st1, out) =>
      match runRouter st1 rest with
      | none => none
      | some (st2, out2) => some (st2, out ++ out2)

/-- The router's starting state: empty book, no workers. -/
def initialRouterState : RouterState :=
  { book := { orders := fun _ => [], lasts := fun _ => none },
    workers := [] }

/-! ## Claim C2: the `cancel` command -/

/-- A cancel command for an order on symbol `"X"` at broker `"B"`. -/
def cancelCmd : Command :=
  { msg := "cancel", oid := "oc", symbol := "X", brokers := ["B"],
    price := 10 }

/-- A router state with a live feed for `("B", "X")` whose last price is
5, and no pending orders. -/
def c2State : RouterState :=
  { book := { orders := fun _ => [],
              lasts := fun k => if k = ("B", "X") then some 5 else none },
    workers := [("B", "X")] }

/-- Claim C2, failing input: A `cancel` command is *not* a no-op: because
the `if msg == 'cancel'` branch is `pass` with no `continue`, the
command falls through to trigger setup — a pending order built from the
cancel command itself is appended to `orders[("B", "X")]` and an `ack`
is emitted for it. -/
theorem cancel_falls_through :
    ∃ st', routerStep c2State cancelCmd 0
        = some (st', [EmsMsg.ack "oc"]) ∧
      st'.book.orders ("B", "X")
        = [{ oid := "oc", pred := TriggerPred.check_gt 10,
             name := Direction.down, cmd := cancelCmd }] := by
  refine ⟨_, rfl, ?_⟩
  decide

/-! ## Claim C7: at most one feed worker per key -/

/-- Claim C7: A command for a key whose last price is already recorded
spawns no new worker: the worker list and the last-price table are
unchanged and the pending order is built from the *existing* last price.
Consequently two commands for the same key, starting from the empty
router state, spawn exactly one worker. -/
theorem at_most_one_worker_per_key :
    (∀ (st : RouterState) (cmd : Command) (q : ℚ) (broker : String)
       (rest : List String) (p : ℚ),
      cmd.brokers = broker :: rest →
      st.book.lasts (broker, cmd.symbol) = some p →
      ∃ st' out, routerStep st cmd q = some (st', out) ∧
        st'.workers = st.workers ∧
        st'.book.lasts = st.book.lasts ∧
        st'.book.orders (broker, cmd.symbol)
          = st.book.orders (broker, cmd.symbol)
            ++ [{ oid := cmd.oid, pred := (mk_check cmd.price p).1,
                  name := (mk_check cmd.price p).2, cmd := cmd }]) ∧
    (∀ (msgA oidA msgB oidB sym broker : String)
       (restA restB : List String) (priceA priceB qA qB : ℚ),
      ∃ st' out,
        runRouter initialRouterState
          [({ msg := msgA, oid := oidA, symbol := sym,
              brokers := broker :: restA, price := priceA }, qA),
           ({ msg := msgB, oid := oidB, symbol := sym,
              brokers := broker :: restB, price := priceB }, qB)]
          = some (st', out) ∧
        st'.workers = [(broker, sym)]) := by
  constructor
  · intro st cmd q broker rest p hbrok hlast
    refine ⟨{ st with book := { st.book with
        orders := fun k => if k = (broker, cmd.symbol)
          then st.book.orders (broker, cmd.symbol)
            ++ [{ oid := cmd.oid, pred := (mk_check cmd.price p).1,
                  name := (mk_check cmd.price p).2, cmd := cmd }]
          else st.book.orders k } },
      [EmsMsg.ack cmd.oid], ?_, rfl, rfl, ?_⟩
    · simp [routerStep, hbrok, hlast]
    · simp
  · intro msgA oidA msgB oidB sym broker restA restB priceA priceB qA qB
    have h1 : (runRouter initialRouterState
        [({ msg := msgA, oid := oidA, symbol := sym,
            brokers := broker :: restA, price := priceA }, qA),
         ({ msg := msgB, oid := oidB, symbol := sym,
            brokers := broker :: restB, price := priceB }, qB)]).map
          (fun r => r.1.workers) = some [(broker, sym)] := by
      simp [runRouter, routerStep, initialRouterState]
    cases hr : runRouter initialRouterState
        [({ msg := msgA, oid := oidA, symbol := sym,
            brokers := broker :: restA, price := priceA }, qA),
         ({ msg := msgB, oid := oidB, symbol := sym,
            brokers := broker :: restB, price := priceB }, qB)] with
    | none => rw [hr] at h1; simp at h1
    | some r =>
      rw [hr] at h1
      exact ⟨r.1, r.2, rfl, by simpa using h1⟩

/-- A router state with a feed already live for `("B", "X")`. -/
def c7State : RouterState :=
  { book := { orders := fun _ => [],
              lasts := fun k => if k = ("B", "X") then some 5 else none },
    workers := [("B", "X")] }

/-- An alert command for the already-live key `("B", "X")`. -/
def c7Cmd : Command :=
  { msg := "alert", oid := "o7", symbol := "X", brokers := ["B"],
    price := 10 }

/-- Witness for C7: on the already-live key, the step spawns nothing,
keeps the last-price table, and appends the order built from the stored
last price 5 (not from the would-be feed price 42). -/
theorem at_most_one_worker_per_key_witness :
    ∃ st' out, routerStep c7State c7Cmd 42 = some (st', out) ∧
      st'.workers = c7State.workers ∧
      st'.book.lasts = c7State.book.lasts ∧
      st'.book.orders ("B", "X")
        = c7State.book.orders ("B", "X")
          ++ [{ oid := "o7", pred := (mk_check 10 5).1,
                name := (mk_check 10 5).2, cmd := c7Cmd }] :=
  at_most_one_worker_per_key.1 c7State c7Cmd 42 "B" [] 5 rfl (by decide)

/-! ## Claim C10: the client order book's `on_fill`

`OrderBook.on_fill` (`_ems.py` lines 63-66):

```python
def on_fill(self, uuid: str) -> None:
    cmd = self._sent_orders[uuid]
    log.info(f"Order executed: {cmd}")
    self._confirmed_orders[uuid] = cmd
```

The plain indexing raises `KeyError` before any mutation when `uuid` is
not a key of `_sent_orders`, so the operation is `Option`-valued: `none`
models the raised lookup error, in which case the book is untouched. -/

/-- The client-side order book: sent and confirmed commands by oid. -/
structure OrderBook where
  _sent_orders : String → Option Command
  _confirmed_orders : String → Option Command

/-- `OrderBook.on_fill`: look the command up in `_sent_orders` (raising
on a missing key) and copy it into `_confirmed_orders`; `_sent_orders`
is not modified. -/
def OrderBook.on_fill (self : OrderBook) (uuid : String) :
    Option OrderBook :=
  match self._sent_orders uuid with
  | none => none
  | some cmd =>
    some { self with
      _confirmed_orders := fun k => if k = uuid then some cmd
                                    else self._confirmed_orders k }

/-- Claim C10: `on_fill uuid` succeeds exactly when `uuid` is a key of
`_sent_orders`; on success the sent command is copied into
`_confirmed_orders` at `uuid`, every other confirmed entry is unchanged,
and `_sent_orders` itself is unchanged (the entry is not removed); on a
missing key it fails with a lookup error, with the book (in particular
`_confirmed_orders`) untouched. -/
theorem on_fill_spec (b : OrderBook) (uuid : String) :
    ((b.on_fill uuid).isSome ↔ (b._sent_orders uuid).isSome) ∧
    (∀ b', b.on_fill uuid = some b' →
      b'._sent_orders = b._sent_orders ∧
      b'._confirmed_orders uuid = b._sent_orders uuid ∧
      ∀ k, k ≠ uuid → b'._confirmed_orders k = b._confirmed_orders k) := by
  constructor
  · cases h : b._sent_orders uuid <;> simp [OrderBook.on_fill, h]
  · intro b' hb'
    cases h : b._sent_orders uuid with
    | none => rw [OrderBook.on_fill, h] at hb'; cases hb'
    | some cmd =>
      rw [OrderBook.on_fill, h] at hb'
      cases hb'
      refine ⟨rfl, by simp [h], fun k hk => by simp [hk]⟩

/-- The command sent as order `"u1"` in the demonstration book. -/
def cmdU1 : Command :=
  { msg := "alert", oid := "u1", symbol := "X", brokers := ["B"],
    price := 10 }

/-- A demonstration client book: order `"u1"` has been sent and nothing
confirmed yet. -/
def clientBook : OrderBook :=
  { _sent_orders := fun k => if k = "u1" then some cmdU1 else none,
    _confirmed_orders := fun _ => none }

/-- The demonstration book after `on_fill "u1"`: the sent command is
confirmed and `_sent_orders` is untouched. -/
def clientBookAfter : OrderBook :=
  { clientBook with
    _confirmed_orders := fun k => if k = "u1" then some cmdU1
                                  else clientBook._confirmed_orders k }

/-- Witness for C10: `on_fill "u1"` on the demonstration book succeeds,
keeping `_sent_orders` intact while confirming `"u1"`; `on_fill "nope"`
corresponds to the `isSome` iff on a missing key. -/
theorem on_fill_spec_witness :
    ((clientBook.on_fill "u1").isSome ↔
      (clientBook._sent_orders "u1").isSome) ∧
    (clientBookAfter._sent_orders = clientBook._sent_orders ∧
      clientBookAfter._confirmed_orders "u1"
        = clientBook._sent_orders "u1") ∧
    ((clientBook.on_fill "nope").isSome ↔
      (clientBook._sent_orders "nope").isSome) := by
  have h1 := on_fill_spec clientBook "u1"
  have h2 := on_fill_spec clientBook "nope"
  have hsome : clientBook.on_fill "u1" = some clientBookAfter := rfl
  have h3 := h1.2 clientBookAfter hsome
  exact ⟨h1.1, ⟨h3.1, h3.2.1⟩, h2.1⟩

end Piker
